import Mathlib

/-!
# Verification of the sales-dashboard data module

A shallow embedding of `app/data.py` from the sales_dashboard repository:
the seeded sample-data generator `_generate_sample_data` (with its
process-wide cache) and the aggregation functions `get_sales_data`,
`get_summary_metrics`, `get_territory_summary`, `get_daily_trend` and
`get_available_weeks`.

Python's pseudo-random draws (`random.randint`, `random.gauss`,
`random.uniform`, `random.choice`) are modelled by an abstract stream of
draws, one bundle per generated record; range facts that the `random`
module guarantees (e.g. `randint(800, 1500)` lies in `[800, 1500]`) become
explicit hypotheses (`ValidDraws`).  Python floats are idealised as
rationals; `int(...)` is truncation toward zero and `round(x, 1)` is
round-half-to-even at one decimal.
-/

set_option maxRecDepth 16000

namespace SalesDashboard

/-- One generated sales record (the dict appended in `_generate_sample_data`). -/
structure SalesRecord where
  date : String
  week : ℤ
  market : String
  account : String
  brand : String
  rep : String
  goal : ℤ
  sales_volume : ℤ
  displays : ℕ
  pods : ℕ
  voids : ℕ
deriving DecidableEq, Repr

/-- The `MARKETS` list from data.py. -/
def MARKETS : List String :=
  ["Austin", "Dallas", "Houston", "San Antonio", "Fort Worth"]

/-- The `ACCOUNTS` list from data.py. -/
def ACCOUNTS : List String :=
  ["Tom Thumb", "Kroger", "Central Market", "Whole Foods", "Market Street"]

/-- The `BRANDS` list from data.py. -/
def BRANDS : List String :=
  ["Moët & Chandon", "Hennessy", "Veuve Clicquot", "Dom Pérignon", "Belvedere"]

/-- The `REPS` list from data.py. -/
def REPS : List String :=
  ["Martinez, J", "Thompson, K", "Williams, R", "Garcia, M", "Johnson, T"]

/-- The random draws consumed while producing a single record. -/
structure Draws where
  baseGoalRaw : ℤ
  attainmentDraw : ℚ
  displays : ℕ
  liftU : ℚ
  brandIdx : ℕ
  repIdx : ℕ
  pods : ℕ
  voids : ℕ

/-- The ranges Python's `random` module guarantees for the draws of
`_generate_sample_data`: `randint(800, 1500)`, `randint(0, 4)`,
`uniform(0.05, 0.10)`, `randint(0, 3)`, `randint(0, 2)`
(`gauss` is unbounded and gets no constraint). -/
def ValidDraws (rng : ℕ → Draws) : Prop :=
  ∀ i, 800 ≤ (rng i).baseGoalRaw ∧ (rng i).baseGoalRaw ≤ 1500 ∧
    (rng i).displays ≤ 4 ∧
    (1/20 : ℚ) ≤ (rng i).liftU ∧ (rng i).liftU ≤ 1/10 ∧
    (rng i).pods ≤ 3 ∧ (rng i).voids ≤ 2

/-- Python `int(...)` on a rational value: truncation toward zero. -/
def pyInt (q : ℚ) : ℤ := if 0 ≤ q then ⌊q⌋ else ⌈q⌉

/-- Python `round(x, 0-digits)` core: round half to even to an integer. -/
def pyRound0 (q : ℚ) : ℤ :=
  if q - ⌊q⌋ < 1/2 then ⌊q⌋
  else if 1/2 < q - ⌊q⌋ then ⌊q⌋ + 1
  else if ⌊q⌋ % 2 = 0 then ⌊q⌋ else ⌊q⌋ + 1

/-- Python `round(x, 1)`: round half to even at one decimal place. -/
def round1 (q : ℚ) : ℚ := (pyRound0 (q * 10) : ℚ) / 10

/-- Two-digit zero-padded decimal rendering (the `%m` / `%d` fields of
`strftime("%Y-%m-%d")`), valid for `n < 100`. -/
def pad2 (n : ℕ) : String :=
  String.mk [Char.ofNat (48 + n / 10), Char.ofNat (48 + n % 10)]

/-- The string `(datetime(2026, 1, 1) + timedelta(days=dayNum)).strftime("%Y-%m-%d")`
for the day numbers the generator uses (`0 ≤ dayNum ≤ 55`, i.e. up to
2026-02-25; January 2026 has 31 days). -/
def dateStr (dayNum : ℕ) : String :=
  if dayNum < 31 then "2026-01-" ++ pad2 (dayNum + 1)
  else "2026-02-" ++ pad2 (dayNum - 30)

/-- The per-market multiplier dict (with `.get(market, 1.0)`). -/
def marketMultiplier (market : String) : ℚ :=
  if market = "Dallas" then 12/10
  else if market = "Houston" then 11/10
  else if market = "Austin" then 95/100
  else if market = "San Antonio" then 85/100
  else if market = "Fort Worth" then 9/10
  else 1

/-- Position of a record in generation order: week index `wi` (0-based),
market index `mi`, account index `ai`, day offset `d`. -/
def recordIndex (wi mi ai d : ℕ) : ℕ := ((wi * 5 + mi) * 5 + ai) * 7 + d

/-- The body of the innermost loop of `_generate_sample_data`: build the
record for week `wi + 1`, market `MARKETS[mi]`, account `ACCOUNTS[ai]`,
day offset `d`. -/
def mkRecord (rng : ℕ → Draws) (wi mi ai d : ℕ) : SalesRecord :=
  let dr := rng (recordIndex wi mi ai d)
  let market := MARKETS.getD mi ""
  let base_goal := pyInt ((dr.baseGoalRaw : ℚ) * marketMultiplier market)
  let clamped := max (1/2 : ℚ) (min (3/2 : ℚ) dr.attainmentDraw)
  let sales0 := pyInt ((base_goal : ℚ) * clamped)
  let sales :=
    if 0 < dr.displays then
      pyInt ((sales0 : ℚ) * (1 + (dr.displays : ℚ) * dr.liftU))
    else sales0
  { date := dateStr (wi * 7 + d)
    week := (wi : ℤ) + 1
    market := market
    account := ACCOUNTS.getD ai ""
    brand := BRANDS.getD (dr.brandIdx % 5) ""
    rep := REPS.getD (dr.repIdx % 5) ""
    goal := base_goal
    sales_volume := sales
    displays := dr.displays
    pods := dr.pods
    voids := dr.voids }

/-- The full generation loop of `_generate_sample_data`: weeks 1–8, the 5
markets, the 5 accounts, 7 day offsets, in that nesting order. -/
def generateData (rng : ℕ → Draws) : List SalesRecord :=
  (List.range 8).flatMap fun wi =>
    (List.range 5).flatMap fun mi =>
      (List.range 5).flatMap fun ai =>
        (List.range 7).map fun d => mkRecord rng wi mi ai d

/-- The function `_generate_sample_data` with its module-level `_DATA_CACHE`, as explicit
state passing: returns the data together with the cache after the call. -/
def generate (rng : ℕ → Draws) (cache : Option (List SalesRecord)) :
    List SalesRecord × Option (List SalesRecord) :=
  match cache with
  | some d => (d, some d)
  | none => (generateData rng, some (generateData rng))

/-- The `week` filter shared by all aggregation functions
(`if week is not None: data = [d for d in data if d["week"] == week]`). -/
def filterWeek (data : List SalesRecord) (week : Option ℤ) : List SalesRecord :=
  match week with
  | some w => data.filter fun r => r.week == w
  | none => data

/-- The `markets` filter of `get_summary_metrics` / `get_daily_trend`
(`if markets: data = [d for d in data if d["market"] in markets]`):
Python truthiness makes `None` and the empty list both mean "no filter". -/
def filterMarkets (data : List SalesRecord) (markets : Option (List String)) :
    List SalesRecord :=
  match markets with
  | some ms => if ms.isEmpty then data else data.filter fun r => ms.contains r.market
  | none => data

/-- Python `get_sales_data(week, market)`: sequential week and market filters. -/
def get_sales_data (data : List SalesRecord) (week : Option ℤ)
    (market : Option String) : List SalesRecord :=
  let d1 := filterWeek data week
  match market with
  | some m => d1.filter fun r => r.market == m
  | none => d1

/-- The dict returned by `get_summary_metrics`. -/
structure Summary where
  total_sales : ℤ
  total_goal : ℤ
  gap_to_goal : ℤ
  attainment : ℚ
deriving DecidableEq, Repr

/-- Python `get_summary_metrics(week, markets)`. -/
def get_summary_metrics (data : List SalesRecord) (week : Option ℤ)
    (markets : Option (List String)) : Summary :=
  let d2 := filterMarkets (filterWeek data week) markets
  if d2.isEmpty then
    { total_sales := 0, total_goal := 0, gap_to_goal := 0, attainment := 0 }
  else
    let total_sales : ℤ := (d2.map (·.sales_volume)).sum
    let total_goal : ℤ := (d2.map (·.goal)).sum
    let att : ℚ := if 0 < total_goal then (total_sales : ℚ) / (total_goal : ℚ) * 100 else 0
    { total_sales := total_sales
      total_goal := total_goal
      gap_to_goal := total_goal - total_sales
      attainment := round1 att }

/-- One entry of the `get_territory_summary` result list. -/
structure TerritoryEntry where
  market : String
  sales : ℤ
  goal : ℤ
  attainment : ℚ
deriving DecidableEq, Repr

/-- The `market_totals` dict update of `get_territory_summary`: a Python
dict is an insertion-ordered association list; updating an existing key
keeps its position, a new key goes to the end. -/
def bumpMarket (acc : List (String × ℤ × ℤ)) (m : String) (s g : ℤ) :
    List (String × ℤ × ℤ) :=
  match acc with
  | [] => [(m, s, g)]
  | (m', s', g') :: rest =>
      if m' = m then (m', s' + s, g' + g) :: rest
      else (m', s', g') :: bumpMarket rest m s g

/-- The aggregation loop of `get_territory_summary`. -/
def marketTotals (data : List SalesRecord) : List (String × ℤ × ℤ) :=
  data.foldl (fun acc r => bumpMarket acc r.market r.sales_volume r.goal) []

/-- The entry built for one market in `get_territory_summary`. -/
def territoryEntry (m : String) (s g : ℤ) : TerritoryEntry :=
  let att : ℚ := if 0 < g then (s : ℚ) / (g : ℚ) * 100 else 0
  { market := m, sales := s, goal := g, attainment := round1 att }

/-- Python `get_territory_summary(week)`: group by market, then
`result.sort(key=lambda x: x["attainment"], reverse=True)`. -/
def get_territory_summary (data : List SalesRecord) (week : Option ℤ) :
    List TerritoryEntry :=
  let d1 := filterWeek data week
  let entries := (marketTotals d1).map fun x => territoryEntry x.1 x.2.1 x.2.2
  entries.insertionSort fun a b => b.attainment ≤ a.attainment

/-- One entry of the `get_daily_trend` result list. -/
structure TrendEntry where
  date : String
  sales : ℤ
deriving DecidableEq, Repr

/-- The `daily_totals` dict update of `get_daily_trend`. -/
def bumpDate (acc : List (String × ℤ)) (k : String) (v : ℤ) : List (String × ℤ) :=
  match acc with
  | [] => [(k, v)]
  | (k', v') :: rest =>
      if k' = k then (k', v' + v) :: rest
      else (k', v') :: bumpDate rest k v

/-- The aggregation loop of `get_daily_trend`. -/
def dailyTotals (data : List SalesRecord) : List (String × ℤ) :=
  data.foldl (fun acc r => bumpDate acc r.date r.sales_volume) []

/-- Python `get_daily_trend(week, markets)`: filter, group by date, and return
`sorted(daily_totals.items())` (keys are distinct, so sorting the pairs
sorts by the date string). -/
def get_daily_trend (data : List SalesRecord) (week : Option ℤ)
    (markets : Option (List String)) : List TrendEntry :=
  let d2 := filterMarkets (filterWeek data week) markets
  ((dailyTotals d2).insertionSort fun a b => a.1 ≤ b.1).map
    fun x => { date := x.1, sales := x.2 }

/-- Python `get_available_weeks()`: `sorted(set(d["week"] for d in data))`. -/
def get_available_weeks (data : List SalesRecord) : List ℤ :=
  ((data.map (·.week)).dedup).insertionSort fun a b => a ≤ b

/-! ## Auxiliary definitions for the statements and proofs -/

/-- The identifying key of a record: (week, market, account, date). -/
def keyOf (r : SalesRecord) : ℤ × String × String × String :=
  (r.week, r.market, r.account, r.date)

/-- The keys the generation loop produces, in generation order (they do not
depend on the random draws). -/
def canonicalKeys : List (ℤ × String × String × String) :=
  (List.range 8).flatMap fun wi =>
    (List.range 5).flatMap fun mi =>
      (List.range 5).flatMap fun ai =>
        (List.range 7).map fun d =>
          ((wi : ℤ) + 1, MARKETS.getD mi "", ACCOUNTS.getD ai "", dateStr (wi * 7 + d))

/-- How a Python dict's key sequence grows on an insert-or-update. -/
def addKey (ks : List String) (k : String) : List String :=
  if k ∈ ks then ks else ks ++ [k]

/-- Value lookup in the `market_totals` association list (0s if absent). -/
def valOf (acc : List (String × ℤ × ℤ)) (m : String) : ℤ × ℤ :=
  match acc with
  | [] => (0, 0)
  | (m', s, g) :: rest => if m' = m then (s, g) else valOf rest m

/-- A concrete draw stream used to instantiate universally quantified
theorems at a specific input. -/
def constDraws : ℕ → Draws := fun _ =>
  { baseGoalRaw := 1000, attainmentDraw := 1, displays := 2, liftU := 7/100,
    brandIdx := 0, repIdx := 1, pods := 1, voids := 0 }

/-- A concrete record used to instantiate universally quantified theorems. -/
def sampleRecord : SalesRecord :=
  { date := "2026-01-01", week := 1, market := "Austin", account := "Kroger",
    brand := "Hennessy", rep := "Garcia, M", goal := 100, sales_volume := 50,
    displays := 1, pods := 0, voids := 0 }

/-! ## Theorems -/

/-- C3: `generate()` is idempotent within a process: the first call performs
the generation and caches it; a second call on the resulting cache returns
the identical cached result without changing any record or the sum of
`sales_volume`. -/
theorem generate_idempotent (rng : ℕ → Draws) (cache : Option (List SalesRecord)) :
    (generate rng none).1 = generateData rng
    ∧ generate rng (generate rng cache).2 = generate rng cache
    ∧ ((generate rng (generate rng cache).2).1 = (generate rng cache).1
        ∧ ((generate rng (generate rng cache).2).1.map (·.sales_volume)).sum =
          ((generate rng cache).1.map (·.sales_volume)).sum) := by
  refine ⟨rfl, ?_, ?_, ?_⟩ <;> cases cache <;> rfl

/-- C6: `get_sales_data` returns exactly the records matching both the week
and market filters when both are given (AND semantics), all records when no
filter is given, and always a sublist of the dataset (generation order
preserved). -/
theorem get_sales_data_spec (data : List SalesRecord) :
    (∀ w m, get_sales_data data (some w) (some m) =
      data.filter fun r => r.week == w && r.market == m)
    ∧ get_sales_data data none none = data
    ∧ ∀ week market, (get_sales_data data week market).Sublist data := by
  refine ⟨?_, rfl, ?_⟩
  · intro w m
    simp only [get_sales_data, filterWeek, List.filter_filter]
    exact List.filter_congr fun r _ => by rw [Bool.and_comm]
  · intro week market
    cases week <;> cases market <;>
      simp only [get_sales_data, filterWeek] <;>
      first
        | exact List.Sublist.refl data
        | exact List.filter_sublist data
        | exact (List.filter_sublist _).trans (List.filter_sublist data)

/-- C7: `get_summary_metrics` is total, and whenever the filtered subset is
empty it returns all four fields as 0. -/
theorem summary_empty (data : List SalesRecord) (week : Option ℤ)
    (markets : Option (List String))
    (h : filterMarkets (filterWeek data week) markets = []) :
    get_summary_metrics data week markets =
      { total_sales := 0, total_goal := 0, gap_to_goal := 0, attainment := 0 } := by
  simp [get_summary_metrics, h]

/-- Witness for C7: the empty dataset filters to nothing and yields the
zero summary. -/
theorem summary_empty_witness :
    get_summary_metrics [] none none =
      { total_sales := 0, total_goal := 0, gap_to_goal := 0, attainment := 0 } :=
  summary_empty [] none none rfl

/-- Rounding zero: `round(0, 1) = 0`. -/
lemma round1_zero : round1 0 = 0 := by
  have h : pyRound0 0 = 0 := by norm_num [pyRound0]
  simp [round1, h]

/-- C2: on a non-empty filtered subset, `get_summary_metrics` returns the
sum of `sales_volume`, the sum of `goal`, their difference as
`gap_to_goal`, and `attainment = total_sales / total_goal × 100` rounded to
one decimal when `total_goal > 0`, else 0. -/
theorem summary_nonempty (data : List SalesRecord) (week : Option ℤ)
    (markets : Option (List String))
    (h : filterMarkets (filterWeek data week) markets ≠ []) :
    get_summary_metrics data week markets =
      { total_sales := ((filterMarkets (filterWeek data week) markets).map (·.sales_volume)).sum
        total_goal := ((filterMarkets (filterWeek data week) markets).map (·.goal)).sum
        gap_to_goal := ((filterMarkets (filterWeek data week) markets).map (·.goal)).sum
          - ((filterMarkets (filterWeek data week) markets).map (·.sales_volume)).sum
        attainment :=
          if 0 < ((filterMarkets (filterWeek data week) markets).map (·.goal)).sum then
            round1 (((((filterMarkets (filterWeek data week) markets).map (·.sales_volume)).sum : ℤ) : ℚ)
              / ((((filterMarkets (filterWeek data week) markets).map (·.goal)).sum : ℤ) : ℚ) * 100)
          else 0 } := by
  rw [get_summary_metrics]
  rw [if_neg (by simpa [List.isEmpty_iff] using h)]
  refine Summary.mk.injEq .. ▸ ?_
  refine ⟨rfl, rfl, rfl, ?_⟩
  split
  · rfl
  · exact round1_zero

/-- Witness for C2: the one-record dataset `[sampleRecord]` has a non-empty
filtered subset and its summary is 50 sold of a 100 goal, 50.0%. -/
theorem summary_nonempty_witness :
    get_summary_metrics [sampleRecord] none none =
      { total_sales := 50, total_goal := 100, gap_to_goal := 50, attainment := 50 } := by
  have h := summary_nonempty [sampleRecord] none none (by decide)
  rw [h]
  norm_num [sampleRecord, filterMarkets, filterWeek, round1, pyRound0]

/-- C8: an empty markets list is treated as "no filter": with any week
filter, `get_summary_metrics` and `get_daily_trend` give the same result
for `markets = some []` as for `markets = none`. -/
theorem empty_markets_no_filter (data : List SalesRecord) (week : Option ℤ) :
    get_summary_metrics data week (some []) = get_summary_metrics data week none
    ∧ get_daily_trend data week (some []) = get_daily_trend data week none :=
  ⟨rfl, rfl⟩

/-! ### Dict-as-association-list lemmas -/

lemma addKey_of_mem {ks : List String} {k : String} (h : k ∈ ks) : addKey ks k = ks := by
  simp [addKey, h]

lemma mem_addKey_iff {ks : List String} {k k' : String} :
    k' ∈ addKey ks k ↔ k' ∈ ks ∨ k' = k := by
  by_cases h : k ∈ ks
  · simp only [addKey, if_pos h]
    constructor
    · exact Or.inl
    · rintro (hk | rfl)
      · exact hk
      · exact h
  · simp [addKey, if_neg h]

lemma addKey_nodup {ks : List String} {k : String} (h : ks.Nodup) : (addKey ks k).Nodup := by
  by_cases hm : k ∈ ks
  · simpa [addKey, hm] using h
  · simp [addKey, hm, List.nodup_append, h]

lemma bumpDate_fst (acc : List (String × ℤ)) (k : String) (v : ℤ) :
    (bumpDate acc k v).map Prod.fst = addKey (acc.map Prod.fst) k := by
  induction acc with
  | nil => simp [bumpDate, addKey]
  | cons hd tl ih =>
    obtain ⟨k', v'⟩ := hd
    by_cases h : k' = k
    · subst h
      simp [bumpDate, addKey]
    · by_cases hm : k ∈ tl.map Prod.fst
      · simp [bumpDate, h, ih, addKey, hm, Ne.symm h]
      · simp [bumpDate, h, ih, addKey, hm, Ne.symm h]

lemma bumpDate_snd_sum (acc : List (String × ℤ)) (k : String) (v : ℤ) :
    ((bumpDate acc k v).map Prod.snd).sum = (acc.map Prod.snd).sum + v := by
  induction acc with
  | nil => simp [bumpDate]
  | cons hd tl ih =>
    obtain ⟨k', v'⟩ := hd
    by_cases h : k' = k
    · subst h
      simp [bumpDate]
      ring
    · simp [bumpDate, h, ih]
      ring

lemma dailyFold_nodup (data : List SalesRecord) : ∀ acc : List (String × ℤ),
    (acc.map Prod.fst).Nodup →
    ((data.foldl (fun a r => bumpDate a r.date r.sales_volume) acc).map Prod.fst).Nodup := by
  induction data with
  | nil => intro acc h; simpa using h
  | cons r tl ih =>
    intro acc h
    simp only [List.foldl_cons]
    exact ih _ (by rw [bumpDate_fst]; exact addKey_nodup h)

lemma dailyFold_sum (data : List SalesRecord) : ∀ acc : List (String × ℤ),
    ((data.foldl (fun a r => bumpDate a r.date r.sales_volume) acc).map Prod.snd).sum =
      (acc.map Prod.snd).sum + (data.map (·.sales_volume)).sum := by
  induction data with
  | nil => intro acc; simp
  | cons r tl ih =>
    intro acc
    simp only [List.foldl_cons, List.map_cons, List.sum_cons]
    rw [ih, bumpDate_snd_sum]
    ring

lemma dailyTotals_nodup (data : List SalesRecord) :
    ((dailyTotals data).map Prod.fst).Nodup :=
  dailyFold_nodup data [] (by simp)

lemma dailyTotals_sum (data : List SalesRecord) :
    ((dailyTotals data).map Prod.snd).sum = (data.map (·.sales_volume)).sum := by
  simpa using dailyFold_sum data []

/-- C5: the daily trend has strictly increasing date strings, and its sales
values sum to the `total_sales` of the summary under the same filters. -/
theorem daily_trend_spec (data : List SalesRecord) (week : Option ℤ)
    (markets : Option (List String)) :
    (get_daily_trend data week markets).Pairwise (fun a b => a.date < b.date)
    ∧ ((get_daily_trend data week markets).map (·.sales)).sum =
        (get_summary_metrics data week markets).total_sales := by
  haveI ht : IsTotal (String × ℤ) (fun a b : String × ℤ => a.1 ≤ b.1) :=
    ⟨fun a b => le_total a.1 b.1⟩
  haveI htr : IsTrans (String × ℤ) (fun a b : String × ℤ => a.1 ≤ b.1) :=
    ⟨fun _ _ _ h h' => le_trans h h'⟩
  constructor
  · simp only [get_daily_trend]
    rw [List.pairwise_map]
    have hs : (List.insertionSort (fun a b : String × ℤ => a.1 ≤ b.1)
        (dailyTotals (filterMarkets (filterWeek data week) markets))).Pairwise
          (fun a b => a.1 ≤ b.1) :=
      List.sorted_insertionSort _ _
    have hn : ((List.insertionSort (fun a b : String × ℤ => a.1 ≤ b.1)
        (dailyTotals (filterMarkets (filterWeek data week) markets))).map Prod.fst).Nodup := by
      have hp := (List.perm_insertionSort (fun a b : String × ℤ => a.1 ≤ b.1)
        (dailyTotals (filterMarkets (filterWeek data week) markets))).map Prod.fst
      exact hp.nodup_iff.mpr (dailyTotals_nodup _)
    have hne := List.pairwise_map.mp hn
    exact (hs.and hne).imp fun h => lt_of_le_of_ne h.1 h.2
  · simp only [get_daily_trend, get_summary_metrics]
    by_cases he : (filterMarkets (filterWeek data week) markets).isEmpty
    · rw [if_pos he]
      rw [List.isEmpty_iff.mp he]
      rfl
    · rw [if_neg he]
      rw [List.map_map]
      have hp := (List.perm_insertionSort (fun a b : String × ℤ => a.1 ≤ b.1)
        (dailyTotals (filterMarkets (filterWeek data week) markets))).map Prod.snd
      exact hp.sum_eq.trans (dailyTotals_sum _)

lemma bumpMarket_fst (acc : List (String × ℤ × ℤ)) (m : String) (s g : ℤ) :
    (bumpMarket acc m s g).map Prod.fst = addKey (acc.map Prod.fst) m := by
  induction acc with
  | nil => simp [bumpMarket, addKey]
  | cons hd tl ih =>
    obtain ⟨m', s', g'⟩ := hd
    by_cases h : m' = m
    · subst h
      simp [bumpMarket, addKey]
    · by_cases hm : m ∈ tl.map Prod.fst
      · simp [bumpMarket, h, ih, addKey, hm, Ne.symm h]
      · simp [bumpMarket, h, ih, addKey, hm, Ne.symm h]

lemma valOf_bumpMarket (acc : List (String × ℤ × ℤ)) (m : String) (s g : ℤ) (q : String) :
    valOf (bumpMarket acc m s g) q =
      if q = m then ((valOf acc q).1 + s, (valOf acc q).2 + g) else valOf acc q := by
  induction acc with
  | nil =>
    by_cases h : q = m
    · subst h
      simp [bumpMarket, valOf]
    · have h' : ¬(m = q) := fun e => h e.symm
      simp [bumpMarket, valOf, h, h']
  | cons hd tl ih =>
    obtain ⟨m₀, s₀, g₀⟩ := hd
    by_cases h0 : m₀ = m
    · subst h0
      by_cases h1 : q = m₀
      · subst h1
        simp [bumpMarket, valOf]
      · have h1' : ¬(m₀ = q) := fun e => h1 e.symm
        simp [bumpMarket, valOf, h1, h1']
    · by_cases h1 : m₀ = q
      · subst h1
        have h2 : ¬(m₀ = m) := h0
        simp [bumpMarket, valOf, h2]
      · simp [bumpMarket, valOf, h0, h1, ih]

lemma marketFold_valOf (data : List SalesRecord) :
    ∀ (acc : List (String × ℤ × ℤ)) (m : String),
    valOf (data.foldl (fun a r => bumpMarket a r.market r.sales_volume r.goal) acc) m =
      ((valOf acc m).1 + ((data.filter fun r => r.market == m).map (·.sales_volume)).sum,
        (valOf acc m).2 + ((data.filter fun r => r.market == m).map (·.goal)).sum) := by
  induction data with
  | nil => intro acc m; simp
  | cons r tl ih =>
    intro acc m
    simp only [List.foldl_cons]
    rw [ih, valOf_bumpMarket]
    simp only [List.filter_cons]
    by_cases h : r.market = m
    · have hb : (r.market == m) = true := beq_iff_eq.mpr h
      rw [if_pos h.symm, hb]
      simp only [if_true, List.map_cons, List.sum_cons, Prod.mk.injEq]
      constructor <;> ring
    · have h' : ¬(m = r.market) := fun e => h e.symm
      have hb : (r.market == m) = false := by
        simp [h]
      rw [if_neg h', hb]
      simp

lemma marketFold_mem_fst (data : List SalesRecord) :
    ∀ (acc : List (String × ℤ × ℤ)) (m : String),
    (m ∈ (data.foldl (fun a r => bumpMarket a r.market r.sales_volume r.goal) acc).map Prod.fst
      ↔ m ∈ acc.map Prod.fst ∨ m ∈ data.map (·.market)) := by
  induction data with
  | nil => intro acc m; simp
  | cons r tl ih =>
    intro acc m
    simp only [List.foldl_cons, List.map_cons, List.mem_cons]
    rw [ih, bumpMarket_fst, mem_addKey_iff]
    tauto

lemma marketFold_nodup (data : List SalesRecord) : ∀ acc : List (String × ℤ × ℤ),
    (acc.map Prod.fst).Nodup →
    ((data.foldl (fun a r => bumpMarket a r.market r.sales_volume r.goal) acc).map Prod.fst).Nodup := by
  induction data with
  | nil => intro acc h; simpa using h
  | cons r tl ih =>
    intro acc h
    simp only [List.foldl_cons]
    exact ih _ (by rw [bumpMarket_fst]; exact addKey_nodup h)

lemma valOf_of_mem : ∀ {acc : List (String × ℤ × ℤ)},
    (acc.map Prod.fst).Nodup → ∀ {m : String} {s g : ℤ}, (m, s, g) ∈ acc →
    valOf acc m = (s, g) := by
  intro acc
  induction acc with
  | nil => intro _ m s g h; simp at h
  | cons hd tl ih =>
    obtain ⟨m₀, s₀, g₀⟩ := hd
    intro hnd m s g hmem
    have hnd' : (m₀ :: tl.map Prod.fst).Nodup := hnd
    rcases List.mem_cons.mp hmem with heq | htl
    · injection heq with e1 e2
      injection e2 with e2 e3
      subst e1
      subst e2
      subst e3
      simp [valOf]
    · have hm : m ∈ tl.map Prod.fst :=
        List.mem_map.mpr ⟨(m, s, g), htl, rfl⟩
      have h0 : ¬(m₀ = m) := by
        intro hh
        exact (List.nodup_cons.mp hnd').1 (hh ▸ hm)
      simp only [valOf, if_neg h0]
      exact ih (List.nodup_cons.mp hnd').2 htl

lemma marketTotals_valOf (data : List SalesRecord) (m : String) :
    valOf (marketTotals data) m =
      (((data.filter fun r => r.market == m).map (·.sales_volume)).sum,
        ((data.filter fun r => r.market == m).map (·.goal)).sum) := by
  rw [marketTotals, marketFold_valOf]
  simp [valOf]

lemma marketTotals_nodup (data : List SalesRecord) :
    ((marketTotals data).map Prod.fst).Nodup :=
  marketFold_nodup data [] (by simp)

lemma marketTotals_mem_fst (data : List SalesRecord) (m : String) :
    m ∈ (marketTotals data).map Prod.fst ↔ m ∈ data.map (·.market) := by
  rw [marketTotals, marketFold_mem_fst]
  simp

lemma mem_generateData {rng : ℕ → Draws} {r : SalesRecord} :
    r ∈ generateData rng ↔
      ∃ wi mi ai d, wi < 8 ∧ mi < 5 ∧ ai < 5 ∧ d < 7 ∧ r = mkRecord rng wi mi ai d := by
  simp only [generateData, List.mem_flatMap, List.mem_map, List.mem_range]
  constructor
  · rintro ⟨wi, hwi, mi, hmi, ai, hai, d, hd, rfl⟩
    exact ⟨wi, mi, ai, d, hwi, hmi, hai, hd, rfl⟩
  · rintro ⟨wi, mi, ai, d, hwi, hmi, hai, hd, rfl⟩
    exact ⟨wi, hwi, mi, hmi, ai, hai, d, hd, rfl⟩

lemma market_mem_generateData (rng : ℕ → Draws) (m : String) :
    m ∈ (generateData rng).map (·.market) ↔ m ∈ MARKETS := by
  constructor
  · intro h
    obtain ⟨r, hr, rfl⟩ := List.mem_map.mp h
    obtain ⟨wi, mi, ai, d, hwi, hmi, hai, hd, rfl⟩ := mem_generateData.mp hr
    show MARKETS.getD mi "" ∈ MARKETS
    rw [List.getD_eq_getElem _ _ (by simpa [MARKETS] using hmi)]
    exact List.getElem_mem _
  · intro h
    obtain ⟨mi, hlen, hval⟩ := List.mem_iff_getElem.mp h
    refine List.mem_map.mpr ⟨mkRecord rng 0 mi 0 0, ?_, ?_⟩
    · exact mem_generateData.mpr
        ⟨0, mi, 0, 0, by omega, by simpa [MARKETS] using hlen, by omega, by omega, rfl⟩
    · show MARKETS.getD mi "" = m
      rw [List.getD_eq_getElem _ _ hlen]
      exact hval

/-- C4: each territory entry carries the per-market sums of the filtered
records with the summary's attainment rule, the list is sorted by
attainment descending, and with no week filter there are exactly 5
entries, one per market. -/
theorem territory_spec (rng : ℕ → Draws) (week : Option ℤ) :
    (∀ e ∈ get_territory_summary (generateData rng) week,
      e.sales = (((filterWeek (generateData rng) week).filter
          fun r => r.market == e.market).map (·.sales_volume)).sum
      ∧ e.goal = (((filterWeek (generateData rng) week).filter
          fun r => r.market == e.market).map (·.goal)).sum
      ∧ e.attainment =
          if 0 < e.goal then round1 ((e.sales : ℚ) / (e.goal : ℚ) * 100) else 0)
    ∧ (get_territory_summary (generateData rng) week).Pairwise
        (fun a b => b.attainment ≤ a.attainment)
    ∧ (week = none →
        (get_territory_summary (generateData rng) week).length = 5
        ∧ ((get_territory_summary (generateData rng) week).map (·.market)).Perm MARKETS) := by
  haveI ht : IsTotal TerritoryEntry (fun a b => b.attainment ≤ a.attainment) :=
    ⟨fun a b => le_total b.attainment a.attainment⟩
  haveI htr : IsTrans TerritoryEntry (fun a b => b.attainment ≤ a.attainment) :=
    ⟨fun _ _ _ h h' => le_trans h' h⟩
  have hmarketperm : ((get_territory_summary (generateData rng) week).map (·.market)).Perm
      ((marketTotals (filterWeek (generateData rng) week)).map Prod.fst) := by
    have hp := (List.perm_insertionSort
      (fun a b : TerritoryEntry => b.attainment ≤ a.attainment)
      ((marketTotals (filterWeek (generateData rng) week)).map
        fun x => territoryEntry x.1 x.2.1 x.2.2)).map (·.market)
    refine List.Perm.trans ?_ (hp.trans ?_)
    · exact List.Perm.refl _
    · rw [List.map_map]
      exact List.Perm.refl _
  refine ⟨?_, ?_, ?_⟩
  · intro e he
    have hsort : e ∈ ((marketTotals (filterWeek (generateData rng) week)).map
        fun x => territoryEntry x.1 x.2.1 x.2.2).insertionSort
          (fun a b => b.attainment ≤ a.attainment) := he
    have he' : e ∈ (marketTotals (filterWeek (generateData rng) week)).map
        fun x => territoryEntry x.1 x.2.1 x.2.2 :=
      (List.mem_insertionSort (fun a b => b.attainment ≤ a.attainment)).mp hsort
    obtain ⟨⟨m, s, g⟩, hmem, rfl⟩ := List.mem_map.mp he'
    have hval := valOf_of_mem (marketTotals_nodup _) hmem
    rw [marketTotals_valOf] at hval
    injection hval with h1 h2
    refine ⟨h1.symm, h2.symm, ?_⟩
    show round1 (if 0 < g then (s : ℚ) / (g : ℚ) * 100 else 0) =
      if 0 < g then round1 ((s : ℚ) / (g : ℚ) * 100) else 0
    by_cases hg : (0 : ℤ) < g
    · rw [if_pos hg, if_pos hg]
    · rw [if_neg hg, if_neg hg]
      exact round1_zero
  · show (((marketTotals (filterWeek (generateData rng) week)).map
        fun x => territoryEntry x.1 x.2.1 x.2.2).insertionSort
        fun a b => b.attainment ≤ a.attainment).Pairwise
        fun a b => b.attainment ≤ a.attainment
    exact List.sorted_insertionSort _ _
  · rintro rfl
    have hext : ((marketTotals (filterWeek (generateData rng) none)).map Prod.fst).Perm MARKETS :=
      (List.perm_ext_iff_of_nodup (marketTotals_nodup _) (by decide)).mpr fun m => by
        rw [marketTotals_mem_fst]
        exact market_mem_generateData rng m
    have hperm := hmarketperm.trans hext
    exact ⟨by simpa using hperm.length_eq, hperm⟩

/-! ### Counting lemmas for the generation loop -/

lemma countP_flatMap {α β : Type} (p : β → Bool) (f : α → List β) :
    ∀ l : List α, (l.flatMap f).countP p = (l.map fun x => (f x).countP p).sum := by
  intro l
  induction l with
  | nil => rfl
  | cons a tl ih => simp [List.flatMap_cons, List.countP_append, ih]

lemma countP_range_unique (p : ℕ → Bool) : ∀ n i₀ : ℕ, i₀ < n → p i₀ = true →
    (∀ i < n, i ≠ i₀ → p i = false) → (List.range n).countP p = 1 := by
  intro n
  induction n with
  | zero => intro i₀ h; omega
  | succ k ih =>
    intro i₀ hi hp hothers
    rw [List.range_succ, List.countP_append]
    by_cases hik : i₀ = k
    · subst hik
      have hz : (List.range i₀).countP p = 0 := List.countP_eq_zero.mpr (by
        intro a ha
        rw [List.mem_range] at ha
        simp [hothers a (by omega) (by omega)])
      simp [hz, hp]
    · rw [ih i₀ (by omega) hp fun i hlt hne => hothers i (by omega) hne]
      have hk : p k = false := hothers k (by omega) (by omega)
      simp [hk]

lemma sum_map_range_unique (g : ℕ → ℕ) : ∀ n i₀ : ℕ, i₀ < n → g i₀ = 1 →
    (∀ i < n, i ≠ i₀ → g i = 0) → ((List.range n).map g).sum = 1 := by
  intro n
  induction n with
  | zero => intro i₀ h; omega
  | succ k ih =>
    intro i₀ hi h1 h0
    rw [List.range_succ, List.map_append, List.sum_append]
    by_cases hik : i₀ = k
    · subst hik
      have hz : ((List.range i₀).map g).sum = 0 := by
        apply List.sum_eq_zero
        intro x hx
        obtain ⟨i, hi', rfl⟩ := List.mem_map.mp hx
        rw [List.mem_range] at hi'
        exact h0 i (by omega) (by omega)
      simp [hz, h1]
    · rw [ih i₀ (by omega) h1 fun i hlt hne => h0 i (by omega) hne]
      simp [h0 k (by omega) (by omega)]

lemma dateStr_inj : ∀ x ∈ List.range 56, ∀ y ∈ List.range 56,
    dateStr x = dateStr y → x = y := by decide

lemma MARKETS_getD_inj : ∀ x ∈ List.range 5, ∀ y ∈ List.range 5,
    MARKETS.getD x "" = MARKETS.getD y "" → x = y := by decide

lemma ACCOUNTS_getD_inj : ∀ x ∈ List.range 5, ∀ y ∈ List.range 5,
    ACCOUNTS.getD x "" = ACCOUNTS.getD y "" → x = y := by decide

lemma countP_generateData_key (rng : ℕ → Draws) (wi mi ai d : ℕ)
    (hwi : wi < 8) (hmi : mi < 5) (hai : ai < 5) (hd : d < 7) :
    ((generateData rng).countP fun r => decide (keyOf r =
      ((wi : ℤ) + 1, MARKETS.getD mi "", ACCOUNTS.getD ai "", dateStr (wi * 7 + d)))) = 1 := by
  set K : ℤ × String × String × String :=
    ((wi : ℤ) + 1, MARKETS.getD mi "", ACCOUNTS.getD ai "", dateStr (wi * 7 + d)) with hK
  set p : SalesRecord → Bool := fun r => decide (keyOf r = K) with hp
  have hdayblock : ∀ wi' mi' ai', wi' < 8 → mi' < 5 → ai' < 5 →
      (((List.range 7).map fun d' => mkRecord rng wi' mi' ai' d').countP p) =
        if wi' = wi ∧ mi' = mi ∧ ai' = ai then 1 else 0 := by
    intro wi' mi' ai' hw hm ha
    rw [List.countP_map]
    by_cases hcond : wi' = wi ∧ mi' = mi ∧ ai' = ai
    · obtain ⟨rfl, rfl, rfl⟩ := hcond
      rw [if_pos ⟨rfl, rfl, rfl⟩]
      apply countP_range_unique _ 7 d hd
      · exact decide_eq_true rfl
      · intro i hi hne
        apply decide_eq_false
        intro he
        have he' : keyOf (mkRecord rng wi' mi' ai' i) = K := he
        rw [hK] at he'
        simp only [keyOf, mkRecord, Prod.mk.injEq] at he'
        have hdate : dateStr (wi' * 7 + i) = dateStr (wi' * 7 + d) := he'.2.2.2
        have := dateStr_inj (wi' * 7 + i) (List.mem_range.mpr (by omega))
          (wi' * 7 + d) (List.mem_range.mpr (by omega)) hdate
        omega
    · rw [if_neg hcond]
      apply List.countP_eq_zero.mpr
      intro i hi
      rw [List.mem_range] at hi
      show ¬((fun r => decide (keyOf r = K)) (mkRecord rng wi' mi' ai' i) = true)
      simp only [decide_eq_true_eq]
      intro he
      rw [hK] at he
      simp only [keyOf, mkRecord, Prod.mk.injEq] at he
      have hw' : wi' = wi := by
        have := he.1
        omega
      have hm' : mi' = mi := MARKETS_getD_inj mi' (List.mem_range.mpr hm)
        mi (List.mem_range.mpr hmi) he.2.1
      have ha' : ai' = ai := ACCOUNTS_getD_inj ai' (List.mem_range.mpr ha)
        ai (List.mem_range.mpr hai) he.2.2.1
      exact hcond ⟨hw', hm', ha'⟩
  have hacctblock : ∀ wi' mi', wi' < 8 → mi' < 5 →
      ((((List.range 5).flatMap fun ai' => (List.range 7).map fun d' =>
        mkRecord rng wi' mi' ai' d')).countP p) =
        if wi' = wi ∧ mi' = mi then 1 else 0 := by
    intro wi' mi' hw hm
    rw [countP_flatMap]
    by_cases hcond : wi' = wi ∧ mi' = mi
    · rw [if_pos hcond]
      apply sum_map_range_unique _ 5 ai hai
      · rw [hdayblock wi' mi' ai hw hm hai, if_pos ⟨hcond.1, hcond.2, rfl⟩]
      · intro i hi hne
        rw [hdayblock wi' mi' i hw hm hi, if_neg fun hc => hne hc.2.2]
    · rw [if_neg hcond]
      apply List.sum_eq_zero
      intro x hx
      obtain ⟨i, hi', rfl⟩ := List.mem_map.mp hx
      rw [hdayblock wi' mi' i hw hm (List.mem_range.mp hi'),
        if_neg fun hc => hcond ⟨hc.1, hc.2.1⟩]
  have hweekblock : ∀ wi', wi' < 8 →
      ((((List.range 5).flatMap fun mi' => (List.range 5).flatMap fun ai' =>
        (List.range 7).map fun d' => mkRecord rng wi' mi' ai' d')).countP p) =
        if wi' = wi then 1 else 0 := by
    intro wi' hw
    rw [countP_flatMap]
    by_cases hcond : wi' = wi
    · rw [if_pos hcond]
      apply sum_map_range_unique _ 5 mi hmi
      · rw [hacctblock wi' mi hw hmi, if_pos ⟨hcond, rfl⟩]
      · intro i hi hne
        rw [hacctblock wi' i hw hi, if_neg fun hc => hne hc.2]
    · rw [if_neg hcond]
      apply List.sum_eq_zero
      intro x hx
      obtain ⟨i, hi', rfl⟩ := List.mem_map.mp hx
      rw [hacctblock wi' i hw (List.mem_range.mp hi'), if_neg fun hc => hcond hc.1]
  show ((List.range 8).flatMap fun wi' => (List.range 5).flatMap fun mi' =>
      (List.range 5).flatMap fun ai' => (List.range 7).map fun d' =>
        mkRecord rng wi' mi' ai' d').countP p = 1
  rw [countP_flatMap]
  apply sum_map_range_unique _ 8 wi hwi
  · rw [hweekblock wi hwi, if_pos rfl]
  · intro i hi hne
    rw [hweekblock i hi, if_neg hne]

/-- C1: the first call to `_generate_sample_data` produces exactly 1400
records, with exactly one record per (week, market, account, day-of-week)
combination: weeks 1–8, the 5 markets, the 5 accounts, 7 days per week. -/
theorem generate_combinations (rng : ℕ → Draws) :
    (generate rng none).1.length = 1400
    ∧ ∀ wk ∈ Finset.Icc (1 : ℕ) 8, ∀ m ∈ MARKETS, ∀ a ∈ ACCOUNTS, ∀ d ∈ Finset.range 7,
      ((generate rng none).1.countP fun r => decide (keyOf r =
        ((wk : ℤ), m, a, dateStr ((wk - 1) * 7 + d)))) = 1 := by
  constructor
  · rfl
  · intro wk hwk m hm a ha d hd
    rw [Finset.mem_Icc] at hwk
    rw [Finset.mem_range] at hd
    obtain ⟨mi, hmi, hmv⟩ := List.mem_iff_getElem.mp hm
    obtain ⟨ai, hai, hav⟩ := List.mem_iff_getElem.mp ha
    have hmi5 : mi < 5 := by simpa [MARKETS] using hmi
    have hai5 : ai < 5 := by simpa [ACCOUNTS] using hai
    have hkey := countP_generateData_key rng (wk - 1) mi ai d (by omega) hmi5 hai5 hd
    have hcast : ((wk - 1 : ℕ) : ℤ) + 1 = (wk : ℤ) := by omega
    rw [hcast] at hkey
    rw [List.getD_eq_getElem MARKETS "" hmi, hmv] at hkey
    rw [List.getD_eq_getElem ACCOUNTS "" hai, hav] at hkey
    exact hkey

/-- Witness for C1: for a concrete draw stream, the (week 1, Austin,
Tom Thumb, first day) combination occurs exactly once. -/
theorem generate_combinations_witness :
    ((generate constDraws none).1.countP fun r => decide (keyOf r =
      (((1 : ℕ) : ℤ), "Austin", "Tom Thumb", dateStr ((1 - 1) * 7 + 0)))) = 1 :=
  (generate_combinations constDraws).2 1 (by decide) "Austin" (by decide)
    "Tom Thumb" (by decide) 0 (by decide)

/-- Witness for C4: the unfiltered territory summary of a concrete
generated dataset has exactly 5 entries. -/
theorem territory_spec_witness :
    (get_territory_summary (generateData constDraws) none).length = 5 :=
  ((territory_spec constDraws none).2.2 rfl).1

/-! ### Positivity of goal and sales volume -/

lemma pyInt_ge {z : ℤ} {q : ℚ} (hz : 0 ≤ z) (h : (z : ℚ) ≤ q) : z ≤ pyInt q := by
  rw [pyInt, if_pos (le_trans (by exact_mod_cast hz) h)]
  exact Int.le_floor.mpr h

lemma marketMultiplier_ge (m : String) : (85/100 : ℚ) ≤ marketMultiplier m := by
  rw [marketMultiplier]
  split_ifs <;> norm_num

lemma mkRecord_goal (rng : ℕ → Draws) (wi mi ai d : ℕ) :
    (mkRecord rng wi mi ai d).goal =
      pyInt (((rng (recordIndex wi mi ai d)).baseGoalRaw : ℚ) *
        marketMultiplier (MARKETS.getD mi "")) := rfl

lemma mkRecord_sales_volume (rng : ℕ → Draws) (wi mi ai d : ℕ) :
    (mkRecord rng wi mi ai d).sales_volume =
      if 0 < (rng (recordIndex wi mi ai d)).displays then
        pyInt ((pyInt ((pyInt (((rng (recordIndex wi mi ai d)).baseGoalRaw : ℚ) *
            marketMultiplier (MARKETS.getD mi "")) : ℚ) *
          max (1/2 : ℚ) (min (3/2 : ℚ) (rng (recordIndex wi mi ai d)).attainmentDraw)) : ℚ) *
          (1 + ((rng (recordIndex wi mi ai d)).displays : ℚ) *
            (rng (recordIndex wi mi ai d)).liftU))
      else
        pyInt ((pyInt (((rng (recordIndex wi mi ai d)).baseGoalRaw : ℚ) *
            marketMultiplier (MARKETS.getD mi "")) : ℚ) *
          max (1/2 : ℚ) (min (3/2 : ℚ) (rng (recordIndex wi mi ai d)).attainmentDraw)) := rfl

/-- C9: with the draw ranges the `random` module guarantees, every
generated record has a strictly positive goal and a strictly positive
sales volume. -/
theorem generateData_positive (rng : ℕ → Draws) (hv : ValidDraws rng) :
    ∀ r ∈ generateData rng, 0 < r.goal ∧ 0 < r.sales_volume := by
  intro r hr
  obtain ⟨wi, mi, ai, d, hwi, hmi, hai, hd, rfl⟩ := mem_generateData.mp hr
  obtain ⟨h800, h1500, hdisp, hu1, hu2, hpods, hvoids⟩ := hv (recordIndex wi mi ai d)
  rw [mkRecord_goal, mkRecord_sales_volume]
  set dr := rng (recordIndex wi mi ai d) with hdr
  have hraw : (800 : ℚ) ≤ (dr.baseGoalRaw : ℚ) := by exact_mod_cast h800
  have hmult := marketMultiplier_ge (MARKETS.getD mi "")
  have hB : (680 : ℚ) ≤ (dr.baseGoalRaw : ℚ) * marketMultiplier (MARKETS.getD mi "") := by
    calc (680 : ℚ) = 800 * (85/100) := by norm_num
    _ ≤ (dr.baseGoalRaw : ℚ) * marketMultiplier (MARKETS.getD mi "") :=
        mul_le_mul hraw hmult (by norm_num) (by linarith)
  have hG : (680 : ℤ) ≤ pyInt ((dr.baseGoalRaw : ℚ) *
      marketMultiplier (MARKETS.getD mi "")) :=
    pyInt_ge (by norm_num) (by exact_mod_cast hB)
  refine ⟨by omega, ?_⟩
  have hGQ : (680 : ℚ) ≤ ((pyInt ((dr.baseGoalRaw : ℚ) *
      marketMultiplier (MARKETS.getD mi "")) : ℤ) : ℚ) := by exact_mod_cast hG
  have hC : (1/2 : ℚ) ≤ max (1/2 : ℚ) (min (3/2 : ℚ) dr.attainmentDraw) :=
    le_max_left _ _
  have hGC : (340 : ℚ) ≤ ((pyInt ((dr.baseGoalRaw : ℚ) *
      marketMultiplier (MARKETS.getD mi "")) : ℤ) : ℚ) *
      max (1/2 : ℚ) (min (3/2 : ℚ) dr.attainmentDraw) := by
    calc (340 : ℚ) = 680 * (1/2) := by norm_num
    _ ≤ _ := mul_le_mul hGQ hC (by norm_num) (by linarith)
  have hS0 : (340 : ℤ) ≤ pyInt (((pyInt ((dr.baseGoalRaw : ℚ) *
      marketMultiplier (MARKETS.getD mi "")) : ℤ) : ℚ) *
      max (1/2 : ℚ) (min (3/2 : ℚ) dr.attainmentDraw)) :=
    pyInt_ge (by norm_num) hGC
  by_cases hdp : 0 < dr.displays
  · rw [if_pos hdp]
    have hS0Q : (340 : ℚ) ≤ ((pyInt (((pyInt ((dr.baseGoalRaw : ℚ) *
        marketMultiplier (MARKETS.getD mi "")) : ℤ) : ℚ) *
        max (1/2 : ℚ) (min (3/2 : ℚ) dr.attainmentDraw)) : ℤ) : ℚ) := by
      exact_mod_cast hS0
    have hlift : (1 : ℚ) ≤ 1 + (dr.displays : ℚ) * dr.liftU := by
      have hdq : (0 : ℚ) ≤ (dr.displays : ℚ) := by positivity
      nlinarith
    have hfin : (340 : ℚ) ≤ ((pyInt (((pyInt ((dr.baseGoalRaw : ℚ) *
        marketMultiplier (MARKETS.getD mi "")) : ℤ) : ℚ) *
        max (1/2 : ℚ) (min (3/2 : ℚ) dr.attainmentDraw)) : ℤ) : ℚ) *
        (1 + (dr.displays : ℚ) * dr.liftU) := by
      nlinarith
    have := pyInt_ge (show (0 : ℤ) ≤ 340 by norm_num) hfin
    omega
  · rw [if_neg hdp]
    omega

/-- Witness for C9: the first generated record of a concrete valid draw
stream has positive goal and sales volume. -/
theorem generateData_positive_witness :
    0 < (mkRecord constDraws 0 0 0 0).goal ∧ 0 < (mkRecord constDraws 0 0 0 0).sales_volume :=
  generateData_positive constDraws
    (fun i => by norm_num [constDraws, ValidDraws])
    (mkRecord constDraws 0 0 0 0)
    (mem_generateData.mpr ⟨0, 0, 0, 0, by omega, by omega, by omega, by omega, rfl⟩)

/-! ### Available weeks -/

/-- C10: `get_available_weeks` returns the distinct week values present in
the dataset, sorted ascending (computed, not hardcoded), and on the
generated dataset it is `[1, 2, 3, 4, 5, 6, 7, 8]`. -/
theorem available_weeks_spec :
    (∀ data : List SalesRecord,
      (get_available_weeks data).Pairwise (fun a b => a ≤ b)
      ∧ (get_available_weeks data).Nodup
      ∧ ∀ w : ℤ, w ∈ get_available_weeks data ↔ w ∈ data.map (·.week))
    ∧ ∀ rng : ℕ → Draws, get_available_weeks (generateData rng) = [1, 2, 3, 4, 5, 6, 7, 8] := by
  have hbase : ∀ data : List SalesRecord,
      (get_available_weeks data).Pairwise (fun a b => a ≤ b)
      ∧ (get_available_weeks data).Nodup
      ∧ ∀ w : ℤ, w ∈ get_available_weeks data ↔ w ∈ data.map (·.week) := by
    intro data
    refine ⟨List.sorted_insertionSort _ _, ?_, ?_⟩
    · exact (List.perm_insertionSort _ _).nodup_iff.mpr (List.nodup_dedup _)
    · intro w
      rw [get_available_weeks, List.mem_insertionSort, List.mem_dedup]
  refine ⟨hbase, ?_⟩
  intro rng
  have hmem : ∀ w : ℤ, w ∈ get_available_weeks (generateData rng) ↔
      w ∈ ([1, 2, 3, 4, 5, 6, 7, 8] : List ℤ) := by
    intro w
    rw [(hbase (generateData rng)).2.2 w]
    constructor
    · intro h
      obtain ⟨r, hr, rfl⟩ := List.mem_map.mp h
      obtain ⟨wi, mi, ai, d, hwi, hmi, hai, hd, rfl⟩ := mem_generateData.mp hr
      show ((wi : ℤ) + 1) ∈ ([1, 2, 3, 4, 5, 6, 7, 8] : List ℤ)
      interval_cases wi <;> simp
    · intro h
      have hw : 1 ≤ w ∧ w ≤ 8 := by
        simp only [List.mem_cons, List.not_mem_nil, or_false] at h
        rcases h with rfl | rfl | rfl | rfl | rfl | rfl | rfl | rfl <;> omega
      refine List.mem_map.mpr ⟨mkRecord rng (w - 1).toNat 0 0 0, ?_, ?_⟩
      · exact mem_generateData.mpr
          ⟨(w - 1).toNat, 0, 0, 0, by omega, by omega, by omega, by omega, rfl⟩
      · show (((w - 1).toNat : ℤ) + 1) = w
        omega
  have hperm : (get_available_weeks (generateData rng)).Perm
      ([1, 2, 3, 4, 5, 6, 7, 8] : List ℤ) :=
    (List.perm_ext_iff_of_nodup (hbase (generateData rng)).2.1 (by decide)).mpr hmem
  exact List.eq_of_perm_of_sorted hperm (hbase (generateData rng)).1 (by decide)

end SalesDashboard
